import Mathlib

/-!
Movie service (`main.go`): embedding and verification.

The program is a single-file HTTP service that keeps movie records in a
package-level map `movies` guarded by one mutex, together with a counter
`nextID`.  Every handler holds the mutex for the whole time it reads or
writes the map, so a run of the server is a sequence of handler
invocations, each acting atomically on the pair (`movies`, `nextID`).

Embedding choices:

* Go `int` is modelled by `Int`.  The only arithmetic the program performs
  on an `int` is `nextID++`, starting from `1`, so the counter stays in the
  range of an `int` of 64 bits (its size on the 64-bit platforms) in every
  run with fewer than `2 ^ 63 - 1` creates; runs beyond that length are
  outside the model.  The range check that
  `fmt.Sscanf` performs on the scanned path parameter is modelled
  explicitly (`ParseInt`).
* `map[int]Movie` is `AList` (an association list without duplicate keys).
  Go leaves the iteration order of a map unspecified; `getMovies` lists the
  records in the order of the association list, and the statements about
  the listing only speak of properties that do not depend on the order.
* `json.NewDecoder(r.Body).Decode(&movie)` is modelled by its effect on the
  target struct (`Body`, `Payload`).
* `http.Error(w, msg, code)` is a response with status `code` and the
  message `msg`; a handler that writes a body without calling `WriteHeader`
  responds `200`.
-/

namespace MovieService

/-! ## Data model -/

/-- The Go struct `Movie`. -/
structure Movie where
  ID : Int
  Title : String
  Director : String
  Year : Int
deriving DecidableEq, Repr

/-- The Go type `map[int]Movie`. -/
abbrev MovieMap := AList (fun _ : Int => Movie)

/-- The package-level variables `movies` and `nextID` (the mutex `mu` only
serialises the handlers and carries no data). -/
structure Store where
  movies : MovieMap
  nextID : Int
deriving DecidableEq

/-- The state at program start: `movies = make(map[int]Movie)`, `nextID = 1`. -/
def Store.init : Store := ⟨∅, 1⟩

/-- What a successfully decoded JSON body does to a `Movie` it is decoded
into: a member that is present (and not `null`) overwrites the field with the
tag of that name, a member that is absent leaves the field as it was. -/
structure Payload where
  id : Option Int
  title : Option String
  director : Option String
  year : Option Int
deriving DecidableEq, Repr

/-- A request body as `Decode` sees it: `none` when decoding returns an error
(not JSON, or JSON of the wrong shape), `some p` when it succeeds. -/
abbrev Body := Option Payload

/-- The effect of a successful `Decode(&movie)` on the struct `movie`. -/
def Payload.decodeInto (p : Payload) (movie : Movie) : Movie :=
  { ID := p.id.getD movie.ID
    Title := p.title.getD movie.Title
    Director := p.director.getD movie.Director
    Year := p.year.getD movie.Year }

/-- The outcome of `json.NewDecoder(r.Body).Decode(&movie)`: the new value of
`movie`, or `none` for an error. -/
def Decode (body : Body) (movie : Movie) : Option Movie :=
  body.map fun p => p.decodeInto movie

/-- The zero value `var movie Movie`. -/
def Movie.zero : Movie := ⟨0, "", "", 0⟩

/-- What a handler wrote to the `http.ResponseWriter`. -/
inductive Content where
  | empty
  | error (msg : String)
  | movie (m : Movie)
  | movieList (l : List Movie)
deriving DecidableEq, Repr

/-- An HTTP response: status code and content. -/
structure Response where
  status : Nat
  content : Content
deriving DecidableEq, Repr

/-- The call `http.Error(w, msg, code)`. -/
def httpError (msg : String) (code : Nat) : Response := ⟨code, .error msg⟩

/-- The fields of `*http.Request` the handlers read. -/
structure Request where
  Method : String
  Path : String
  Body : Body
deriving DecidableEq, Repr

/-! ## Store operations -/

/-- The function `getMovies`. -/
def getMovies (s : Store) : Store × Response :=
  let movieList := s.movies.entries.map fun e => e.2
  (s, ⟨200, .movieList movieList⟩)

/-- The function `createMovie`.  The statement `nextID++` is `s.nextID + 1`:
that is the value the Go statement leaves as long as `s.nextID < 2 ^ 63 - 1`
(at `2 ^ 63 - 1` a 64-bit `int` wraps), and the statements about the new
counter are made for such stores or for runs from the initial store. -/
def createMovie (s : Store) (r : Request) : Store × Response :=
  match Decode r.Body Movie.zero with
  | none => (s, httpError "Invalid request" 400)
  | some movie =>
    let movie := { movie with ID := s.nextID }
    (⟨s.movies.insert movie.ID movie, s.nextID + 1⟩, ⟨201, .movie movie⟩)

/-- The function `getMovie`. -/
def getMovie (s : Store) (id : Int) : Store × Response :=
  match s.movies.lookup id with
  | none => (s, httpError "Movie not found" 404)
  | some movie => (s, ⟨200, .movie movie⟩)

/-- The function `updateMovie`. -/
def updateMovie (s : Store) (r : Request) (id : Int) : Store × Response :=
  match s.movies.lookup id with
  | none => (s, httpError "Movie not found" 404)
  | some movie =>
    match Decode r.Body movie with
    | none => (s, httpError "Invalid request" 400)
    | some movie => (⟨s.movies.insert id movie, s.nextID⟩, ⟨200, .movie movie⟩)

/-- The function `deleteMovie`. -/
def deleteMovie (s : Store) (id : Int) : Store × Response :=
  match s.movies.lookup id with
  | none => (s, httpError "Movie not found" 404)
  | some _ => (⟨s.movies.erase id, s.nextID⟩, ⟨204, .empty⟩)

/-! ## Path parameter: `parseID` and the part of `fmt.Sscanf` it runs

`fmt.Sscanf(path, "/movies/%d", &id)` is modelled on strings as lists of
runes.  The format holds eight literal runes and one verb `%d` whose operand
is an `*int` (64 bits, as on the 64-bit platforms).  Every error of the scan
reaches `parseID` as a non-nil `err`, whose text `parseID` discards, so the
scan is modelled as a function to `Option`.

The scanner is library code and not part of the repository.  Two points of
it are treated as follows.

* The digit string the scanner uses for the verb `d` holds the decimal
  digits; the scanner's support for digit-separating underscores may add the
  underscore to it, in which case an underscore is taken into the number
  token and the conversion of the token then fails.  The embedding takes this
  as the parameter `u` (`true`: the underscore belongs to the digit string),
  and every statement is proved for both values.
* The scanner reads at most `2 ^ 30` runes; a request path is shorter (the
  server limits the request header), and the limit is not modelled. -/

/-- The function `isSpace` of package `fmt` (its table `space`). -/
def isSpace (r : Char) : Bool :=
  let n := r.toNat
  (0x0009 ≤ n && n ≤ 0x000d) || n == 0x0020 || n == 0x0085 || n == 0x00a0 ||
  n == 0x1680 || (0x2000 ≤ n && n ≤ 0x200a) || (0x2028 ≤ n && n ≤ 0x2029) ||
  n == 0x202f || n == 0x205f || n == 0x3000

/-- The method `(*ss).advance` on a format without spaces or verbs: every rune
of the format must be the next rune of the input; a different rune
("input does not match format") and the end of the input ("unexpected EOF")
are errors.  Returns the input that is left. -/
def advance : List Char → List Char → Option (List Char)
  | [], input => some input
  | _ :: _, [] => none
  | fmtc :: format, inputc :: input =>
    if fmtc = inputc then advance format input else none

/-- The method `(*ss).SkipSpace` with `nlIsSpace = false`, as `Sscanf` sets it:
skips space runes, fails on a line feed ("unexpected newline"), stops before
the first rune that is not a space.  A carriage return followed by a line feed
is passed over, and the line feed then fails. -/
def SkipSpace : List Char → Option (List Char)
  | [] => some []
  | r :: input =>
    if r = '\r' ∧ input.head? = some '\n' then SkipSpace input
    else if r = '\n' then none
    else if isSpace r then SkipSpace input
    else some (r :: input)

/-- Membership in the string `decimalDigits` of package `fmt`; also the digit
test of `strconv.ParseUint` in base 10. -/
def isDecimalDigit (r : Char) : Bool := '0'.toNat ≤ r.toNat && r.toNat ≤ '9'.toNat

/-- Membership in the digit string `getBase` returns for the verb `d`: the
decimal digits and, when `u` is set, the underscore. -/
def isScanDigit (u : Bool) (r : Char) : Bool := isDecimalDigit r || (u && r = '_')

/-- The string `sign` of package `fmt`. -/
def isSign (r : Char) : Bool := r = '+' || r = '-'

/-- The method `(*ss).scanNumber` (without a base prefix): there must be a
rune and it must be one of the digits; then takes digits as long as they
come.  Returns the token and the input that is left. -/
def scanNumber (u : Bool) (input : List Char) : Option (List Char × List Char) :=
  match input with
  | [] => none
  | r :: _ =>
    if isScanDigit u r then
      some (input.takeWhile (isScanDigit u), input.dropWhile (isScanDigit u))
    else none

/-- The function `strconv.ParseUint(s, 10, 64)`: the value of a non-empty string
of decimal digits below `2 ^ 64`; any other rune is a syntax error, a value
from `2 ^ 64` on a range error. -/
def ParseUint (s : List Char) : Option Nat :=
  if s = [] then none
  else s.foldlM (fun n c =>
    if isDecimalDigit c then
      let n1 := n * 10 + (c.toNat - '0'.toNat)
      if n1 < 2 ^ 64 then some n1 else none
    else none) 0

/-- The function `strconv.ParseInt(s, 10, 64)`: an optional sign, then
`ParseUint`; a value outside `-2 ^ 63 .. 2 ^ 63 - 1` is a range error. -/
def ParseInt (s : List Char) : Option Int :=
  match s with
  | [] => none
  | c :: rest =>
    let neg := c = '-'
    let digits := if c = '+' ∨ c = '-' then rest else s
    match ParseUint digits with
    | none => none
    | some un =>
      if ¬ neg ∧ un ≥ 2 ^ 63 then none
      else if neg ∧ un > 2 ^ 63 then none
      else some (if neg then -(un : Int) else (un : Int))

/-- The method `(*ss).scanInt` for the verb `d` and 64 bits: skip space, fail
at the end of the input, accept one sign, scan the number, and convert the
token (sign included) with `ParseInt`. -/
def scanInt (u : Bool) (input : List Char) : Option Int :=
  match SkipSpace input with
  | none => none
  | some [] => none
  | some (r :: input) =>
    let (sgn, input) := if isSign r then ([r], input) else ([], r :: input)
    match scanNumber u input with
    | none => none
    | some (tok, _) => ParseInt (sgn ++ tok)

/-- The call `fmt.Sscanf(path, "/movies/%d", &id)`: `doScanf` advances over the
literal runes, skips space before the verb and scans the operand; the input
after the number is not looked at.  `some id` when `err == nil`. -/
def Sscanf_movies_d (u : Bool) (path : List Char) : Option Int :=
  match advance "/movies/".toList path with
  | none => none
  | some input =>
    match SkipSpace input with
    | none => none
    | some input => scanInt u input

/-- The function `parseID`. -/
def parseID (u : Bool) (path : String) : Except String Int :=
  match Sscanf_movies_d u path.toList with
  | none => .error "invalid movie ID"
  | some id => .ok id

/-! ## Handlers -/

/-- The function `moviesHandler`, registered for the pattern `/movies`. -/
def moviesHandler (s : Store) (r : Request) : Store × Response :=
  if r.Method = "GET" then getMovies s
  else if r.Method = "POST" then createMovie s r
  else (s, httpError "Method not allowed" 405)

/-- The function `movieHandler`, registered for the pattern `/movies/`. -/
def movieHandler (u : Bool) (s : Store) (r : Request) : Store × Response :=
  match parseID u r.Path with
  | .error err => (s, httpError err 400)
  | .ok id =>
    if r.Method = "GET" then getMovie s id
    else if r.Method = "PUT" then updateMovie s r id
    else if r.Method = "DELETE" then deleteMovie s id
    else (s, httpError "Method not allowed" 405)

/-- One request as the server's mux hands it to one of the two handlers that
`main` registers. -/
inductive Invocation where
  | movies (r : Request)
  | movie (r : Request)
deriving DecidableEq, Repr

/-- The effect of one handler invocation on the store, and its response. -/
def serve (u : Bool) (s : Store) : Invocation → Store × Response
  | .movies r => moviesHandler s r
  | .movie r => movieHandler u s r

/-- Serves the requests of a trace one after the other; returns the final
store and the responses in the order of the requests. -/
def run (u : Bool) (s : Store) : List Invocation → Store × List Response
  | [] => (s, [])
  | i :: rest =>
    let (s1, resp) := serve u s i
    let (s2, resps) := run u s1 rest
    (s2, resp :: resps)

/-- The stores the server can be in: those a trace of requests leads to from
the initial store. -/
def Reachable (u : Bool) (s : Store) : Prop := ∃ trace, (run u Store.init trace).1 = s

/-- The id a response reports as newly assigned: the id of the record in a
`201` response (only `createMovie` responds `201`). -/
def createdID (resp : Response) : Option Int :=
  if resp.status = 201 then
    match resp.content with
    | .movie m => some m.ID
    | _ => none
  else none

/-- The ids the creates of a run returned, in the order of the requests. -/
def createdIDs (resps : List Response) : List Int := resps.filterMap createdID

/-- The number of responses of a run that have the given status. -/
def countStatus (code : Nat) (resps : List Response) : Nat :=
  resps.countP fun resp => resp.status = code

/-- The request a handler invocation carries. -/
def Invocation.request : Invocation → Request
  | .movies r => r
  | .movie r => r

/-- The body of the request decodes and has an `id` member. -/
def Request.hasPayloadID (r : Request) : Bool :=
  match r.Body with
  | some p => p.id.isSome
  | none => false

/-- Every key of the map is the `ID` field of its record. -/
def Store.KeysAreIDs (s : Store) : Prop :=
  ∀ (k : Int) (m : Movie), s.movies.lookup k = some m → m.ID = k

/-! ## The form of an accepted path -/

/-- The number a string of decimal digits denotes. -/
def decVal (ds : List Char) : Nat :=
  ds.foldl (fun n c => n * 10 + (c.toNat - '0'.toNat)) 0

/-- A path of the form `/movies/`, white space without a line feed, an
optional sign, one or more decimal digits, and then either nothing or
anything that does not begin with a rune of the scanner's digit string (a
decimal digit or, when `u` is set, an underscore); `id` is the number the
sign and the digits denote, and it lies in `-2 ^ 63 .. 2 ^ 63 - 1`. -/
def AcceptedPath (u : Bool) (path : List Char) (id : Int) : Prop :=
  ∃ ws sgn ds rest : List Char,
    path = "/movies/".toList ++ (ws ++ (sgn ++ (ds ++ rest))) ∧
    (∀ c ∈ ws, isSpace c = true ∧ c ≠ '\n') ∧
    ds ≠ [] ∧ (∀ c ∈ ds, isDecimalDigit c = true) ∧
    (∀ c, rest.head? = some c → isScanDigit u c = false) ∧
    ((sgn = [] ∨ sgn = ['+']) ∧ decVal ds < 2 ^ 63 ∧ id = (decVal ds : Int) ∨
     sgn = ['-'] ∧ decVal ds ≤ 2 ^ 63 ∧ id = -(decVal ds : Int))

/-! ## Example data -/

/-- The record of the scenario in the specification. -/
def inception : Movie := ⟨1, "Inception", "Nolan", 2010⟩

/-- The store after the first create of the scenario. -/
def inceptionStore : Store := ⟨AList.singleton 1 inception, 2⟩

/-- A create request with the scenario's payload. -/
def postInception : Request :=
  ⟨"POST", "/movies", some ⟨none, some "Inception", some "Nolan", some 2010⟩⟩

/-- An update request for id 1 whose payload is `{"id": 99}`. -/
def putID99 : Request := ⟨"PUT", "/movies/1", some ⟨some 99, none, none, none⟩⟩

/-- An update request for id 1 whose payload is `{"year": 2011}`. -/
def putYear2011 : Request := ⟨"PUT", "/movies/1", some ⟨none, none, none, some 2011⟩⟩

/-! ## Shape of one step -/

/-- Every handler invocation is of one of four kinds: it leaves the store as
it is and does not respond 201 or 204; it is a create, which inserts a record
with id `nextID` under key `nextID` and increments the counter; it is an
update of a key that is present; or it is a delete of a key that is present. -/
theorem serve_cases {u : Bool} (s : Store) (i : Invocation) :
    ((serve u s i).1 = s ∧ (serve u s i).2.status ≠ 201 ∧ (serve u s i).2.status ≠ 204) ∨
    (∃ m : Movie, m.ID = s.nextID ∧
      serve u s i = (⟨s.movies.insert s.nextID m, s.nextID + 1⟩, ⟨201, .movie m⟩)) ∨
    (∃ (id : Int) (m : Movie), id ∈ s.movies ∧
      serve u s i = (⟨s.movies.insert id m, s.nextID⟩, ⟨200, .movie m⟩)) ∨
    (∃ id : Int, id ∈ s.movies ∧
      serve u s i = (⟨s.movies.erase id, s.nextID⟩, ⟨204, .empty⟩)) := by
  cases i with
  | movies r =>
    simp only [serve, moviesHandler]
    split_ifs with h1 h2
    · left; simp [getMovies]
    · cases hd : Decode r.Body Movie.zero with
      | none => left; simp [createMovie, hd, httpError]
      | some m =>
        right; left
        exact ⟨{ m with ID := s.nextID }, rfl, by simp [createMovie, hd]⟩
    · left; simp [httpError]
  | movie r =>
    simp only [serve, movieHandler]
    cases hp : parseID u r.Path with
    | error e => left; simp [httpError]
    | ok id =>
      simp only []
      split_ifs with h1 h2 h3
      · left
        cases hl : s.movies.lookup id <;> simp [getMovie, hl, httpError]
      · cases hl : s.movies.lookup id with
        | none => left; simp [updateMovie, hl, httpError]
        | some old =>
          have hmem : id ∈ s.movies := by
            rw [← AList.lookup_isSome, hl]; rfl
          cases hd : Decode r.Body old with
          | none => left; simp [updateMovie, hl, hd, httpError]
          | some m => right; right; left; exact ⟨id, m, hmem, by simp [updateMovie, hl, hd]⟩
      · cases hl : s.movies.lookup id with
        | none => left; simp [deleteMovie, hl, httpError]
        | some old =>
          have hmem : id ∈ s.movies := by
            rw [← AList.lookup_isSome, hl]; rfl
          right; right; right; exact ⟨id, hmem, by simp [deleteMovie, hl]⟩
      · left; simp [httpError]

/-! ## Update and the id of a record -/

/-- C1: `updateMovie` decodes the payload into the whole stored struct, its
`ID` field included, and stores the result under the old key.  On the store
holding `{1, "Inception", "Nolan", 2010}` under key 1, an update of id 1 with
the payload `{"id": 99}` responds 200 with a record whose id is 99, and the
record stored under key 1 afterwards has id 99. -/
theorem updateMovie_payload_id_overwrites :
    (updateMovie inceptionStore putID99 1).2 =
      ⟨200, .movie ⟨99, "Inception", "Nolan", 2010⟩⟩ ∧
    (updateMovie inceptionStore putID99 1).1.movies.lookup 1 =
      some ⟨99, "Inception", "Nolan", 2010⟩ := by
  decide

/-- C2: the store reached from the initial store by a create followed by an
update of id 1 with the payload `{"id": 99}` holds under key 1 a record whose
`ID` field is 99. -/
theorem reachable_store_key_ne_ID (u : Bool) :
    Reachable u (run u Store.init [.movies postInception, .movie putID99]).1 ∧
    (run u Store.init [.movies postInception, .movie putID99]).1.movies.lookup 1 =
      some ⟨99, "Inception", "Nolan", 2010⟩ := by
  exact ⟨⟨_, rfl⟩, by cases u <;> decide⟩

/-! ## Create, get, update, delete on one store -/

/-- C5: on every store, a create with a payload that decodes responds 201
with a record, and a get with that record's id on the store the create left
responds 200 with the same record. -/
theorem create_then_get (s : Store) (method path : String) (p : Payload) :
    ∃ m : Movie,
      (createMovie s ⟨method, path, some p⟩).2 = ⟨201, .movie m⟩ ∧
      getMovie (createMovie s ⟨method, path, some p⟩).1 m.ID =
        ((createMovie s ⟨method, path, some p⟩).1, ⟨200, .movie m⟩) := by
  refine ⟨{ p.decodeInto Movie.zero with ID := s.nextID }, ?_, ?_⟩
  · simp [createMovie, Decode]
  · simp [createMovie, Decode, getMovie, AList.lookup_insert]

/-- C6: when `old` is stored under `id` and the payload decodes, `updateMovie`
responds 200 with a record `m` that is also the record stored under `id`
afterwards, and each of title, director and year of `m` is the payload's value
when the payload has the field and the value of `old` when it has not. -/
theorem updateMovie_merges (s : Store) (id : Int) (old : Movie) (method path : String)
    (p : Payload) (h : s.movies.lookup id = some old) :
    ∃ m : Movie,
      (updateMovie s ⟨method, path, some p⟩ id).2 = ⟨200, .movie m⟩ ∧
      (updateMovie s ⟨method, path, some p⟩ id).1.movies.lookup id = some m ∧
      (∀ t, p.title = some t → m.Title = t) ∧ (p.title = none → m.Title = old.Title) ∧
      (∀ d, p.director = some d → m.Director = d) ∧
      (p.director = none → m.Director = old.Director) ∧
      (∀ y, p.year = some y → m.Year = y) ∧ (p.year = none → m.Year = old.Year) := by
  refine ⟨p.decodeInto old, ?_, ?_, ?_⟩
  · simp [updateMovie, h, Decode]
  · simp [updateMovie, h, Decode, AList.lookup_insert]
  · simp only [Payload.decodeInto]
    refine ⟨?_, ?_, ?_, ?_, ?_, ?_⟩ <;> intros <;> simp_all

/-- Scenario for C6: `{"year": 2011}` on `{1, "Inception", "Nolan", 2010}`
gives `{1, "Inception", "Nolan", 2011}`, returned and stored. -/
theorem updateMovie_merges_scenario :
    inceptionStore.movies.lookup 1 = some inception ∧
    (updateMovie inceptionStore putYear2011 1).2 =
      ⟨200, .movie ⟨1, "Inception", "Nolan", 2011⟩⟩ ∧
    (updateMovie inceptionStore putYear2011 1).1.movies.lookup 1 =
      some ⟨1, "Inception", "Nolan", 2011⟩ := by
  have hl : inceptionStore.movies.lookup 1 = some inception := by decide
  obtain ⟨m, h1, h2, -, ht, -, hd, hy, -⟩ :=
    updateMovie_merges inceptionStore 1 inception "PUT" "/movies/1"
      ⟨none, none, none, some 2011⟩ hl
  have hid : m.ID = 1 := by
    have h3 : (updateMovie inceptionStore putYear2011 1).2 = ⟨200, .movie m⟩ := h1
    have h4 : (updateMovie inceptionStore putYear2011 1).2 =
        ⟨200, .movie ⟨1, "Inception", "Nolan", 2011⟩⟩ := by decide
    rw [h4] at h3
    injection h3 with _ h5
    injection h5 with h6
    rw [← h6]
  have hm : m = ⟨1, "Inception", "Nolan", 2011⟩ := by
    cases m
    simp only [Movie.mk.injEq]
    exact ⟨hid, ht rfl, hd rfl, hy 2011 rfl⟩
  rw [hm] at h1 h2
  exact ⟨hl, h1, h2⟩

/-- C9: on every store, a handler invocation that responds 400, 404 or 405
leaves the store (the map and the counter) as it was. -/
theorem failed_request_leaves_store (u : Bool) (s : Store) (i : Invocation)
    (h : (serve u s i).2.status = 400 ∨ (serve u s i).2.status = 404 ∨
      (serve u s i).2.status = 405) :
    (serve u s i).1 = s := by
  rcases serve_cases s i with hs | ⟨m, -, hs⟩ | ⟨id, m, -, hs⟩ | ⟨id, -, hs⟩
  · exact hs.1
  · rw [hs] at h; simp at h
  · rw [hs] at h; simp at h
  · rw [hs] at h; simp at h

/-- Scenario for C9: an update of id 1 whose body does not decode responds 400
and leaves the store holding the scenario's record as it was. -/
theorem failed_request_leaves_store_scenario :
    (serve false inceptionStore (.movie ⟨"PUT", "/movies/1", none⟩)).2.status = 400 ∧
    (serve false inceptionStore (.movie ⟨"PUT", "/movies/1", none⟩)).1 = inceptionStore :=
  ⟨by decide,
   failed_request_leaves_store false inceptionStore (.movie ⟨"PUT", "/movies/1", none⟩)
     (Or.inl (by decide))⟩

/-- C10: on a store whose counter `c` is below the largest `int`
(`c < 2 ^ 63 - 1`, where `nextID++` does not wrap), a create whose payload
decodes (whatever id the payload carries) responds 201 with the record made of
`c` and the payload's title, director and year (the zero value for a field the
payload omits), stores that record under key `c` and leaves the counter at
`c + 1`; a create whose body does not decode responds 400 "Invalid request"
and leaves the store as it was. -/
theorem createMovie_assigns_counter (s : Store) (method path : String)
    (hc : s.nextID < 2 ^ 63 - 1) :
    (∀ p : Payload,
      (createMovie s ⟨method, path, some p⟩).2 =
        ⟨201, .movie ⟨s.nextID, p.title.getD "", p.director.getD "", p.year.getD 0⟩⟩ ∧
      (createMovie s ⟨method, path, some p⟩).1.movies.lookup s.nextID =
        some ⟨s.nextID, p.title.getD "", p.director.getD "", p.year.getD 0⟩ ∧
      (createMovie s ⟨method, path, some p⟩).1.nextID = s.nextID + 1 ∧
      (createMovie s ⟨method, path, some p⟩).1.nextID ≤ 2 ^ 63 - 1) ∧
    createMovie s ⟨method, path, none⟩ = (s, httpError "Invalid request" 400) := by
  refine ⟨fun p => ⟨?_, ?_, ?_, ?_⟩, ?_⟩
  · simp [createMovie, Decode, Payload.decodeInto, Movie.zero]
  · simp [createMovie, Decode, Payload.decodeInto, Movie.zero, AList.lookup_insert]
  · simp [createMovie, Decode]
  · simp only [createMovie, Decode, Option.map_some']
    omega
  · simp [createMovie, Decode]

/-- Scenario for C10: on the store holding the scenario's record, whose counter
is 2, a create whose payload carries the id 99 and the title "Memento"
responds 201 with the record of id 2, stores it under key 2 and leaves the
counter at 3; a create whose body does not decode responds 400. -/
theorem createMovie_assigns_counter_scenario :
    inceptionStore.nextID < 2 ^ 63 - 1 ∧
    (createMovie inceptionStore
        ⟨"POST", "/movies", some ⟨some 99, some "Memento", none, some 2000⟩⟩).2 =
      ⟨201, .movie ⟨2, "Memento", "", 2000⟩⟩ ∧
    (createMovie inceptionStore
        ⟨"POST", "/movies",
          some ⟨some 99, some "Memento", none, some 2000⟩⟩).1.movies.lookup 2 =
      some ⟨2, "Memento", "", 2000⟩ ∧
    (createMovie inceptionStore
        ⟨"POST", "/movies", some ⟨some 99, some "Memento", none, some 2000⟩⟩).1.nextID = 3 ∧
    createMovie inceptionStore ⟨"POST", "/movies", none⟩ =
      (inceptionStore, httpError "Invalid request" 400) := by
  have hc : inceptionStore.nextID < 2 ^ 63 - 1 := by decide
  obtain ⟨h1, h2⟩ := createMovie_assigns_counter inceptionStore "POST" "/movies" hc
  obtain ⟨g1, g2, g3, -⟩ := h1 ⟨some 99, some "Memento", none, some 2000⟩
  exact ⟨hc, g1, g2, g3, h2⟩

/-! ## Runs from the initial store -/

theorem run_cons_fst {u : Bool} (s : Store) (i : Invocation) (rest : List Invocation) :
    (run u s (i :: rest)).1 = (run u (serve u s i).1 rest).1 := rfl

theorem run_cons_snd {u : Bool} (s : Store) (i : Invocation) (rest : List Invocation) :
    (run u s (i :: rest)).2 = (serve u s i).2 :: (run u (serve u s i).1 rest).2 := rfl

/-- What one step does to the counter, to the keys and to the bound of the
keys by the counter. -/
theorem serve_step {u : Bool} (s : Store) (i : Invocation) (hs : ∀ k ∈ s.movies, k < s.nextID) :
    (∀ k ∈ (serve u s i).1.movies, k < (serve u s i).1.nextID) ∧
    s.nextID ≤ (serve u s i).1.nextID ∧
    (∀ id, createdID (serve u s i).2 = some id →
      id = s.nextID ∧ s.nextID < (serve u s i).1.nextID) ∧
    (∀ k ∈ (serve u s i).1.movies, k ∈ s.movies ∨ createdID (serve u s i).2 = some k) := by
  rcases serve_cases s i with ⟨h1, h2, -⟩ | ⟨m, hm, h⟩ | ⟨id, m, hid, h⟩ | ⟨id, hid, h⟩
  · rw [h1]
    refine ⟨hs, le_refl _, ?_, fun k hk => Or.inl hk⟩
    intro id hc
    simp [createdID, h2] at hc
  · rw [h]
    refine ⟨?_, by simp, ?_, ?_⟩
    · intro k hk
      rcases (AList.mem_insert _).1 hk with rfl | hk
      · simp
      · have := hs k hk
        simp only
        omega
    · intro id hc
      simp only [createdID, if_true] at hc
      simp only [Option.some.injEq] at hc
      subst hc
      exact ⟨hm, by simp⟩
    · intro k hk
      rcases (AList.mem_insert _).1 hk with rfl | hk
      · right; simp [createdID, hm]
      · left; exact hk
  · rw [h]
    refine ⟨?_, le_refl _, ?_, ?_⟩
    · intro k hk
      rcases (AList.mem_insert _).1 hk with rfl | hk
      · exact hs _ hid
      · exact hs k hk
    · intro k hc
      simp [createdID] at hc
    · intro k hk
      rcases (AList.mem_insert _).1 hk with rfl | hk
      · exact Or.inl hid
      · exact Or.inl hk
  · rw [h]
    refine ⟨?_, le_refl _, ?_, ?_⟩
    · intro k hk
      exact hs k (AList.mem_erase.1 hk).2
    · intro k hc
      simp [createdID] at hc
    · intro k hk
      exact Or.inl (AList.mem_erase.1 hk).2

/-- The invariant of a run that starts in a store whose keys are below its
counter. -/
theorem run_invariant {u : Bool} (trace : List Invocation) :
    ∀ s : Store, (∀ k ∈ s.movies, k < s.nextID) →
      (∀ k ∈ (run u s trace).1.movies, k < (run u s trace).1.nextID) ∧
      s.nextID ≤ (run u s trace).1.nextID ∧
      (∀ id ∈ createdIDs (run u s trace).2,
        s.nextID ≤ id ∧ id < (run u s trace).1.nextID) ∧
      List.Pairwise (· < ·) (createdIDs (run u s trace).2) ∧
      (∀ k ∈ (run u s trace).1.movies,
        k ∈ s.movies ∨ k ∈ createdIDs (run u s trace).2) := by
  induction trace with
  | nil =>
    intro s hs
    exact ⟨hs, le_refl _, by simp [run, createdIDs], by simp [run, createdIDs],
      fun k hk => Or.inl hk⟩
  | cons i rest ih =>
    intro s hs
    obtain ⟨h1, h2, h3, h4⟩ := serve_step s i hs
    obtain ⟨g1, g2, g3, g4, g5⟩ := ih (serve u s i).1 h1
    rw [run_cons_fst, run_cons_snd]
    refine ⟨g1, le_trans h2 g2, ?_, ?_, ?_⟩
    · intro id hid
      simp only [createdIDs, List.filterMap_cons] at hid
      cases hc : createdID (serve u s i).2 with
      | none =>
        rw [hc] at hid
        have := g3 id hid
        omega
      | some c =>
        rw [hc] at hid
        obtain ⟨e1, e2⟩ := h3 c hc
        rcases List.mem_cons.1 hid with rfl | hid
        · omega
        · have := g3 id hid
          omega
    · simp only [createdIDs, List.filterMap_cons]
      cases hc : createdID (serve u s i).2 with
      | none => exact g4
      | some c =>
        obtain ⟨e1, e2⟩ := h3 c hc
        refine List.Pairwise.cons ?_ g4
        intro id hid
        have := g3 id hid
        omega
    · intro k hk
      rcases g5 k hk with hk | hk
      · rcases h4 k hk with hk | hk
        · exact Or.inl hk
        · right
          simp [createdIDs, List.filterMap_cons, hk]
      · right
        simp only [createdIDs, List.filterMap_cons]
        cases hc : createdID (serve u s i).2 with
        | none => exact hk
        | some c => exact List.mem_cons_of_mem _ hk

/-- C4: in every run from the initial store the ids returned by the creates
are strictly increasing in the order of the requests (each is greater than
every earlier one, so none is used twice, whatever was deleted in between),
the counter of the store reached is greater than every key of its map, and no
further handler invocation decreases the counter. -/
theorem ids_fresh_and_increasing (u : Bool) (trace : List Invocation) :
    List.Pairwise (· < ·) (createdIDs (run u Store.init trace).2) ∧
    (∀ k ∈ (run u Store.init trace).1.movies, k < (run u Store.init trace).1.nextID) ∧
    (∀ i : Invocation,
      (run u Store.init trace).1.nextID ≤ (serve u (run u Store.init trace).1 i).1.nextID) := by
  have h0 : ∀ k ∈ Store.init.movies, k < Store.init.nextID := by
    intro k hk
    exact absurd hk (AList.not_mem_empty k)
  obtain ⟨g1, -, -, g4, -⟩ := run_invariant trace Store.init h0
  refine ⟨g4, g1, ?_⟩
  intro i
  exact (serve_step _ i g1).2.1

/-- Scenario for C4: a create, the delete of its record and a second create
return the ids 1 and 2 (the id of the deleted record is not used again), and
the counter of the store reached, 3, is not decreased by a further create. -/
theorem ids_fresh_and_increasing_scenario :
    createdIDs (run false Store.init
      [.movies postInception, .movie ⟨"DELETE", "/movies/1", none⟩,
        .movies postInception]).2 = [1, 2] ∧
    List.Pairwise (· < ·) (createdIDs (run false Store.init
      [.movies postInception, .movie ⟨"DELETE", "/movies/1", none⟩,
        .movies postInception]).2) ∧
    (3 : Int) ≤ (serve false (run false Store.init
      [.movies postInception, .movie ⟨"DELETE", "/movies/1", none⟩,
        .movies postInception]).1 (.movies postInception)).1.nextID := by
  obtain ⟨h1, -, h3⟩ := ids_fresh_and_increasing false
    [.movies postInception, .movie ⟨"DELETE", "/movies/1", none⟩, .movies postInception]
  exact ⟨by decide, h1, h3 (.movies postInception)⟩

/-- C7: on every store, `deleteMovie` on an id that is no key responds 404
"Movie not found" and leaves the store as it was; on an id that is a key it
responds 204 with an empty body and removes the key, and a get on that id
directly afterwards responds 404 "Movie not found".  In every run from the
initial store, a get on an id that no create of the run returned responds
404 "Movie not found". -/
theorem deleteMovie_removes (u : Bool) (s : Store) (id : Int) :
    (id ∉ s.movies → deleteMovie s id = (s, httpError "Movie not found" 404)) ∧
    (id ∈ s.movies →
      (deleteMovie s id).2 = ⟨204, .empty⟩ ∧
      id ∉ (deleteMovie s id).1.movies ∧
      getMovie (deleteMovie s id).1 id =
        ((deleteMovie s id).1, httpError "Movie not found" 404)) ∧
    (∀ trace : List Invocation, id ∉ createdIDs (run u Store.init trace).2 →
      getMovie (run u Store.init trace).1 id =
        ((run u Store.init trace).1, httpError "Movie not found" 404)) := by
  refine ⟨?_, ?_, ?_⟩
  · intro h
    have hl := AList.lookup_eq_none.2 h
    simp [deleteMovie, hl]
  · intro h
    obtain ⟨m, hm⟩ := Option.isSome_iff_exists.1 (AList.lookup_isSome.2 h)
    refine ⟨by simp [deleteMovie, hm], ?_, ?_⟩
    · simp [deleteMovie, hm, AList.mem_erase]
    · simp [deleteMovie, hm, getMovie, AList.lookup_erase]
  · intro trace h
    have h0 : ∀ k ∈ Store.init.movies, k < Store.init.nextID := by
      intro k hk
      exact absurd hk (AList.not_mem_empty k)
    obtain ⟨-, -, -, -, g5⟩ := run_invariant trace Store.init h0
    have hn : id ∉ (run u Store.init trace).1.movies := by
      intro hk
      rcases g5 id hk with hk | hk
      · exact AList.not_mem_empty id hk
      · exact h hk
    have hl := AList.lookup_eq_none.2 hn
    simp [getMovie, hl]

/-- Scenario for C7: in the store holding the scenario's record under key 1,
id 1 is a key and id 99 is not; deleting 1 responds 204 and a get on 1 then
responds 404; deleting 99 responds 404; and after the run made of one create
(which returns id 1) a get on 99 responds 404. -/
theorem deleteMovie_removes_scenario :
    (1 : Int) ∈ inceptionStore.movies ∧
    (deleteMovie inceptionStore 1).2 = ⟨204, .empty⟩ ∧
    (getMovie (deleteMovie inceptionStore 1).1 1).2 = httpError "Movie not found" 404 ∧
    deleteMovie inceptionStore 99 = (inceptionStore, httpError "Movie not found" 404) ∧
    (getMovie (run false Store.init [.movies postInception]).1 99).2 =
      httpError "Movie not found" 404 := by
  have h1 : (1 : Int) ∈ inceptionStore.movies := by decide
  have h99 : (99 : Int) ∉ inceptionStore.movies := by decide
  have hc : (99 : Int) ∉ createdIDs (run false Store.init [.movies postInception]).2 := by decide
  obtain ⟨a, -, -⟩ := deleteMovie_removes false inceptionStore 99
  obtain ⟨-, b, -⟩ := deleteMovie_removes false inceptionStore 1
  obtain ⟨-, -, c⟩ := deleteMovie_removes false inceptionStore 99
  obtain ⟨b1, -, b3⟩ := b h1
  refine ⟨h1, b1, ?_, a h99, ?_⟩
  · rw [b3]
  · rw [c _ hc]

/-! ## The scan of the path parameter -/

theorem advance_eq_some (format input rest : List Char) :
    advance format input = some rest ↔ input = format ++ rest := by
  induction format generalizing input with
  | nil => simp [advance, eq_comm]
  | cons f fs ih =>
    cases input with
    | nil => simp [advance]
    | cons c cs =>
      by_cases h : f = c
      · subst h
        simp [advance, ih]
      · simp [advance, h]
        intro hc
        exact absurd hc.symm h

theorem isSpace_of_digit (c : Char) (h : isDecimalDigit c = true) : isSpace c = false := by
  simp only [isDecimalDigit, Bool.and_eq_true, decide_eq_true_eq] at h
  have h0 : '0'.toNat = 48 := rfl
  have h9 : '9'.toNat = 57 := rfl
  simp only [isSpace, Bool.or_eq_false_iff, Bool.and_eq_false_iff, beq_eq_false_iff_ne,
    decide_eq_false_iff_not]
  omega

theorem SkipSpace_eq_some (input rest : List Char) :
    SkipSpace input = some rest ↔
      ∃ ws, input = ws ++ rest ∧ (∀ c ∈ ws, isSpace c = true ∧ c ≠ '\n') ∧
        (∀ c, rest.head? = some c → isSpace c = false) := by
  induction input with
  | nil =>
    simp only [SkipSpace, Option.some.injEq]
    constructor
    · rintro rfl
      exact ⟨[], by simp⟩
    · rintro ⟨ws, h, -, -⟩
      have := List.append_eq_nil.1 h.symm
      exact this.2.symm
  | cons r input ih =>
    have hskip : isSpace r = true → r ≠ '\n' →
        (SkipSpace input = some rest ↔
          ∃ ws, r :: input = ws ++ rest ∧ (∀ c ∈ ws, isSpace c = true ∧ c ≠ '\n') ∧
            (∀ c, rest.head? = some c → isSpace c = false)) := by
      intro hsp hnl
      rw [ih]
      constructor
      · rintro ⟨ws, h1, h2, h3⟩
        refine ⟨r :: ws, by simp [h1], ?_, h3⟩
        intro c hc
        rcases List.mem_cons.1 hc with rfl | hc
        · exact ⟨hsp, hnl⟩
        · exact h2 c hc
      · rintro ⟨ws, h1, h2, h3⟩
        cases ws with
        | nil =>
          simp only [List.nil_append] at h1
          have := h3 r (by simp [← h1])
          rw [hsp] at this
          exact absurd this (by simp)
        | cons c ws =>
          simp only [List.cons_append, List.cons.injEq] at h1
          exact ⟨ws, h1.2, fun c hc => h2 c (List.mem_cons_of_mem _ hc), h3⟩
    have hcr : isSpace '\r' = true := by decide
    have hlf : isSpace '\n' = true := by decide
    simp only [SkipSpace]
    split_ifs with h1 h2 h3
    · have hr : r = '\r' := h1.1
      exact hskip (by rw [hr]; exact hcr) (by rw [hr]; decide)
    · constructor
      · intro h
        exact absurd h (by simp)
      · rintro ⟨ws, h4, h5, h6⟩
        exfalso
        cases ws with
        | nil =>
          simp only [List.nil_append] at h4
          have := h6 r (by simp [← h4])
          rw [h2, hlf] at this
          exact absurd this (by simp)
        | cons c ws =>
          simp only [List.cons_append, List.cons.injEq] at h4
          exact (h5 c (List.mem_cons_self _ _)).2 (h4.1 ▸ h2)
    · exact hskip h3 h2
    · simp only [Option.some.injEq]
      constructor
      · rintro rfl
        refine ⟨[], by simp, by simp, ?_⟩
        intro c hc
        simp only [List.head?_cons, Option.some.injEq] at hc
        subst hc
        simpa using h3
      · rintro ⟨ws, h4, h5, h6⟩
        cases ws with
        | nil => simpa using h4
        | cons c ws =>
          simp only [List.cons_append, List.cons.injEq] at h4
          exact absurd (h4.1 ▸ (h5 c (List.mem_cons_self _ _)).1) h3

theorem takeWhile_dropWhile_eq (p : Char → Bool) (l tok rest : List Char) :
    (l.takeWhile p = tok ∧ l.dropWhile p = rest) ↔
      l = tok ++ rest ∧ (∀ c ∈ tok, p c = true) ∧
        (∀ c, rest.head? = some c → p c = false) := by
  constructor
  · rintro ⟨rfl, rfl⟩
    refine ⟨(List.takeWhile_append_dropWhile p l).symm,
      fun c hc => List.mem_takeWhile_imp hc, ?_⟩
    intro c hc
    have := List.head?_dropWhile_not p l
    rw [hc] at this
    exact this
  · rintro ⟨rfl, h1, h2⟩
    induction tok with
    | nil =>
      cases rest with
      | nil => simp
      | cons c cs =>
        have := h2 c rfl
        simp [List.takeWhile, List.dropWhile, this]
    | cons c cs ih =>
      have hc := h1 c (List.mem_cons_self _ _)
      have := ih (fun d hd => h1 d (List.mem_cons_of_mem _ hd))
      simp [List.takeWhile, List.dropWhile, hc, this.1, this.2]

theorem scanNumber_eq_some {u : Bool} (input tok rest : List Char) :
    scanNumber u input = some (tok, rest) ↔
      tok ≠ [] ∧ input = tok ++ rest ∧ (∀ c ∈ tok, isScanDigit u c = true) ∧
        (∀ c, rest.head? = some c → isScanDigit u c = false) := by
  cases input with
  | nil =>
    simp only [scanNumber]
    constructor
    · intro h; exact absurd h (by simp)
    · rintro ⟨h1, h2, -, -⟩
      exact absurd (List.append_eq_nil.1 h2.symm).1 h1
  | cons r input =>
    simp only [scanNumber]
    split_ifs with h
    · simp only [Option.some.injEq, Prod.mk.injEq]
      rw [takeWhile_dropWhile_eq]
      constructor
      · rintro ⟨h1, h2, h3⟩
        refine ⟨?_, h1, h2, h3⟩
        rintro rfl
        simp only [List.nil_append] at h1
        have := h3 r (by simp [← h1])
        rw [h] at this
        exact absurd this (by simp)
      · rintro ⟨-, h1, h2, h3⟩
        exact ⟨h1, h2, h3⟩
    · constructor
      · intro h'; exact absurd h' (by simp)
      · rintro ⟨h1, h2, h3, -⟩
        exfalso
        cases tok with
        | nil => exact h1 rfl
        | cons c cs =>
          simp only [List.cons_append, List.cons.injEq] at h2
          exact h (h2.1 ▸ h3 c (List.mem_cons_self _ _))

theorem foldl_decVal_ge (s : List Char) (acc : Nat) :
    acc ≤ s.foldl (fun n c => n * 10 + (c.toNat - '0'.toNat)) acc := by
  induction s generalizing acc with
  | nil => simp
  | cons c cs ih =>
    simp only [List.foldl_cons]
    exact le_trans (by omega) (ih _)

theorem foldlM_ParseUint (s : List Char) (acc n : Nat) (hacc : acc < 2 ^ 64) :
    s.foldlM (fun n c =>
        if isDecimalDigit c then
          let n1 := n * 10 + (c.toNat - '0'.toNat)
          if n1 < 2 ^ 64 then some n1 else none
        else none) acc = some n ↔
      (∀ c ∈ s, isDecimalDigit c = true) ∧
        s.foldl (fun n c => n * 10 + (c.toNat - '0'.toNat)) acc = n ∧ n < 2 ^ 64 := by
  induction s generalizing acc with
  | nil =>
    simp only [List.foldlM_nil, List.foldl_nil, List.not_mem_nil, false_implies, implies_true,
      true_and]
    constructor
    · intro h
      have : acc = n := by simpa using h
      exact ⟨this, this ▸ hacc⟩
    · rintro ⟨rfl, -⟩
      rfl
  | cons c cs ih =>
    simp only [List.foldlM_cons, List.foldl_cons, List.mem_cons, forall_eq_or_imp]
    by_cases hd : isDecimalDigit c = true
    · by_cases hn : acc * 10 + (c.toNat - '0'.toNat) < 2 ^ 64
      · simp only [hd, if_true, hn, Option.bind_eq_bind, Option.some_bind, true_and]
        exact ih _ hn
      · simp only [hd, if_true, hn, if_false, Option.bind_eq_bind, Option.none_bind, true_and]
        constructor
        · intro h; exact absurd h (by simp)
        · rintro ⟨-, h1, h2⟩
          have := foldl_decVal_ge cs (acc * 10 + (c.toNat - '0'.toNat))
          omega
    · simp [hd]

theorem ParseUint_eq_some (s : List Char) (n : Nat) :
    ParseUint s = some n ↔
      s ≠ [] ∧ (∀ c ∈ s, isDecimalDigit c = true) ∧ decVal s = n ∧ n < 2 ^ 64 := by
  unfold ParseUint
  split_ifs with h
  · simp [h]
  · rw [foldlM_ParseUint s 0 n (by norm_num)]
    simp [h, decVal]

theorem isSign_of_digit (c : Char) (h : isDecimalDigit c = true) : isSign c = false := by
  simp only [isSign, Bool.or_eq_false_iff, decide_eq_false_iff_not]
  constructor <;> rintro rfl <;> exact absurd h (by decide)

theorem isScanDigit_of_digit {u : Bool} (c : Char) (h : isDecimalDigit c = true) :
    isScanDigit u c = true := by
  simp [isScanDigit, h]

theorem ParseInt_unsigned (c : Char) (cs : List Char) (id : Int) (hc : isSign c = false) :
    ParseInt (c :: cs) = some id ↔
      (∀ d ∈ c :: cs, isDecimalDigit d = true) ∧ decVal (c :: cs) < 2 ^ 63 ∧
        id = (decVal (c :: cs) : Int) := by
  simp only [isSign, Bool.or_eq_false_iff, decide_eq_false_iff_not] at hc
  obtain ⟨hp, hm⟩ := hc
  simp only [ParseInt, hp, hm, or_self, if_false, false_and, not_false_eq_true, true_and]
  cases hu : ParseUint (c :: cs) with
  | none =>
    simp only [reduceCtorEq, false_iff]
    rintro ⟨h1, h2, -⟩
    have := (ParseUint_eq_some (c :: cs) (decVal (c :: cs))).2 ⟨by simp, h1, rfl, by omega⟩
    rw [hu] at this
    exact absurd this (by simp)
  | some un =>
    obtain ⟨-, h1, h2, h3⟩ := (ParseUint_eq_some _ _).1 hu
    simp only
    split_ifs with h
    · simp only [false_iff]
      rintro ⟨-, h4, -⟩
      omega
    · simp only [Option.some.injEq]
      constructor
      · rintro rfl
        exact ⟨h1, by omega, by rw [h2]⟩
      · rintro ⟨-, -, rfl⟩
        rw [h2]

theorem ParseInt_plus (ds : List Char) (id : Int) :
    ParseInt ('+' :: ds) = some id ↔
      ds ≠ [] ∧ (∀ d ∈ ds, isDecimalDigit d = true) ∧ decVal ds < 2 ^ 63 ∧
        id = (decVal ds : Int) := by
  have hne : ¬ ('+' = '-') := by decide
  simp only [ParseInt, hne, true_or, if_true, false_and, not_false_eq_true, true_and, if_false]
  cases hu : ParseUint ds with
  | none =>
    simp only [reduceCtorEq, false_iff]
    rintro ⟨h0, h1, h2, -⟩
    have := (ParseUint_eq_some ds (decVal ds)).2 ⟨h0, h1, rfl, by omega⟩
    rw [hu] at this
    exact absurd this (by simp)
  | some un =>
    obtain ⟨h0, h1, h2, h3⟩ := (ParseUint_eq_some _ _).1 hu
    simp only
    split_ifs with h
    · simp only [false_iff]
      rintro ⟨-, -, h4, -⟩
      omega
    · simp only [Option.some.injEq]
      constructor
      · rintro rfl
        exact ⟨h0, h1, by omega, by rw [h2]⟩
      · rintro ⟨-, -, -, rfl⟩
        rw [h2]

theorem ParseInt_minus (ds : List Char) (id : Int) :
    ParseInt ('-' :: ds) = some id ↔
      ds ≠ [] ∧ (∀ d ∈ ds, isDecimalDigit d = true) ∧ decVal ds ≤ 2 ^ 63 ∧
        id = -(decVal ds : Int) := by
  simp only [ParseInt, or_true, if_true, not_true_eq_false, false_and, if_false, true_and]
  cases hu : ParseUint ds with
  | none =>
    simp only [reduceCtorEq, false_iff]
    rintro ⟨h0, h1, h2, -⟩
    have := (ParseUint_eq_some ds (decVal ds)).2 ⟨h0, h1, rfl, by omega⟩
    rw [hu] at this
    exact absurd this (by simp)
  | some un =>
    obtain ⟨h0, h1, h2, h3⟩ := (ParseUint_eq_some _ _).1 hu
    simp only
    split_ifs with h
    · simp only [false_iff]
      rintro ⟨-, -, h4, -⟩
      omega
    · simp only [Option.some.injEq]
      constructor
      · rintro rfl
        exact ⟨h0, h1, by omega, by rw [h2]⟩
      · rintro ⟨-, -, -, rfl⟩
        rw [h2]

theorem head_of_number_not_space (sgn ds rest : List Char) (hne : ds ≠ [])
    (hds : ∀ c ∈ ds, isDecimalDigit c = true)
    (hsgn : sgn = [] ∨ sgn = ['+'] ∨ sgn = ['-']) :
    ∀ c, (sgn ++ (ds ++ rest)).head? = some c → isSpace c = false := by
  intro c hc
  have hsp1 : isSpace '+' = false := by decide
  have hsp2 : isSpace '-' = false := by decide
  cases ds with
  | nil => exact absurd rfl hne
  | cons d ds =>
    rcases hsgn with rfl | rfl | rfl
    · simp only [List.nil_append, List.cons_append, List.head?_cons,
        Option.some.injEq] at hc
      subst hc
      exact isSpace_of_digit _ (hds _ (List.mem_cons_self _ _))
    · simp only [List.singleton_append, List.head?_cons, Option.some.injEq] at hc
      subst hc
      exact hsp1
    · simp only [List.singleton_append, List.head?_cons, Option.some.injEq] at hc
      subst hc
      exact hsp2

theorem scanInt_eq_some {u : Bool} (input : List Char) (id : Int) :
    scanInt u input = some id ↔
      ∃ ws sgn ds rest : List Char,
        input = ws ++ (sgn ++ (ds ++ rest)) ∧
        (∀ c ∈ ws, isSpace c = true ∧ c ≠ '\n') ∧
        ds ≠ [] ∧ (∀ c ∈ ds, isDecimalDigit c = true) ∧
        (∀ c, rest.head? = some c → isScanDigit u c = false) ∧
        ((sgn = [] ∨ sgn = ['+']) ∧ decVal ds < 2 ^ 63 ∧ id = (decVal ds : Int) ∨
         sgn = ['-'] ∧ decVal ds ≤ 2 ^ 63 ∧ id = -(decVal ds : Int)) := by
  constructor
  · intro h
    unfold scanInt at h
    cases hs : SkipSpace input with
    | none => rw [hs] at h; exact absurd h (by simp)
    | some inp2 =>
      rw [hs] at h
      obtain ⟨ws, e, hws, -⟩ := (SkipSpace_eq_some _ _).1 hs
      cases inp2 with
      | nil => exact absurd h (by simp)
      | cons r inp3 =>
        by_cases hsg : isSign r = true
        · simp only [hsg, if_true] at h
          cases hn : scanNumber u inp3 with
          | none => rw [hn] at h; exact absurd h (by simp)
          | some tr =>
            obtain ⟨tok, rest⟩ := tr
            rw [hn] at h
            simp only [List.singleton_append] at h
            obtain ⟨h1, h2, h3, h4⟩ := (scanNumber_eq_some _ _ _).1 hn
            simp only [isSign, Bool.or_eq_true, decide_eq_true_eq] at hsg
            rcases hsg with rfl | rfl
            · obtain ⟨g1, g2, g3, g4⟩ := (ParseInt_plus _ _).1 h
              exact ⟨ws, ['+'], tok, rest, by simp [e, h2], hws, g1, g2, h4,
                Or.inl ⟨Or.inr rfl, g3, g4⟩⟩
            · obtain ⟨g1, g2, g3, g4⟩ := (ParseInt_minus _ _).1 h
              exact ⟨ws, ['-'], tok, rest, by simp [e, h2], hws, g1, g2, h4,
                Or.inr ⟨rfl, g3, g4⟩⟩
        · simp only [hsg, Bool.false_eq_true, if_false] at h
          cases hn : scanNumber u (r :: inp3) with
          | none => rw [hn] at h; exact absurd h (by simp)
          | some tr =>
            obtain ⟨tok, rest⟩ := tr
            rw [hn] at h
            simp only [List.nil_append] at h
            obtain ⟨h1, h2, h3, h4⟩ := (scanNumber_eq_some _ _ _).1 hn
            cases tok with
            | nil => exact absurd rfl h1
            | cons c cs =>
              have hc : c = r := by
                simp only [List.cons_append, List.cons.injEq] at h2
                exact h2.1.symm
              subst hc
              obtain ⟨g1, g2, g3⟩ :=
                (ParseInt_unsigned c cs id (by simpa using hsg)).1 h
              exact ⟨ws, [], c :: cs, rest, by simp [e, h2], hws, by simp, g1, h4,
                Or.inl ⟨Or.inl rfl, g2, g3⟩⟩
  · rintro ⟨ws, sgn, ds, rest, e, hws, hne, hds, hrest, hid⟩
    cases ds with
    | nil => exact absurd rfl hne
    | cons d ds =>
      have hd := hds d (List.mem_cons_self _ _)
      have hnum : scanNumber u ((d :: ds) ++ rest) = some (d :: ds, rest) :=
        (scanNumber_eq_some _ _ _).2
          ⟨by simp, rfl, fun c hc => isScanDigit_of_digit c (hds c hc), hrest⟩
      have hsg1 : isSign '+' = true := by decide
      have hsg2 : isSign '-' = true := by decide
      have hskip : SkipSpace input = some (sgn ++ ((d :: ds) ++ rest)) := by
        refine (SkipSpace_eq_some _ _).2 ⟨ws, e, hws, ?_⟩
        refine head_of_number_not_space sgn (d :: ds) rest hne hds ?_
        rcases hid with ⟨h | h, -, -⟩ | ⟨h, -, -⟩
        · exact Or.inl h
        · exact Or.inr (Or.inl h)
        · exact Or.inr (Or.inr h)
      unfold scanInt
      rw [hskip]
      rcases hid with ⟨rfl | rfl, h1, h2⟩ | ⟨rfl, h1, h2⟩
      · have hsd := isSign_of_digit d hd
        simp only [List.nil_append, List.cons_append, hsd, Bool.false_eq_true, if_false]
        have hnum2 : scanNumber u (d :: (ds ++ rest)) = some (d :: ds, rest) := hnum
        rw [hnum2]
        simp only [List.nil_append]
        exact (ParseInt_unsigned d ds id hsd).2 ⟨hds, h1, h2⟩
      · simp only [List.singleton_append, hsg1, if_true]
        rw [hnum]
        simp only [List.singleton_append]
        exact (ParseInt_plus _ _).2 ⟨by simp, hds, h1, h2⟩
      · simp only [List.singleton_append, hsg2, if_true]
        rw [hnum]
        simp only [List.singleton_append]
        exact (ParseInt_minus _ _).2 ⟨by simp, hds, h1, h2⟩

theorem Sscanf_movies_d_eq_some {u : Bool} (path : List Char) (id : Int) :
    Sscanf_movies_d u path = some id ↔ AcceptedPath u path id := by
  unfold Sscanf_movies_d AcceptedPath
  constructor
  · intro h
    cases ha : advance "/movies/".toList path with
    | none => rw [ha] at h; exact absurd h (by simp)
    | some inp1 =>
      rw [ha] at h
      simp only at h
      have e1 := (advance_eq_some _ _ _).1 ha
      cases hs : SkipSpace inp1 with
      | none => rw [hs] at h; exact absurd h (by simp)
      | some inp2 =>
        rw [hs] at h
        simp only at h
        obtain ⟨ws1, e2, hws1, -⟩ := (SkipSpace_eq_some _ _).1 hs
        obtain ⟨ws2, sgn, ds, rest, e3, hws2, hne, hds, hrest, hid⟩ :=
          (scanInt_eq_some _ _).1 h
        refine ⟨ws1 ++ ws2, sgn, ds, rest, ?_, ?_, hne, hds, hrest, hid⟩
        · rw [e1, e2, e3]
          simp
        · intro c hc
          rcases List.mem_append.1 hc with hc | hc
          · exact hws1 c hc
          · exact hws2 c hc
  · rintro ⟨ws, sgn, ds, rest, e, hws, hne, hds, hrest, hid⟩
    have ha := (advance_eq_some "/movies/".toList path _).2 e
    rw [ha]
    have hscan : scanInt u (sgn ++ (ds ++ rest)) = some id :=
      (scanInt_eq_some _ _).2 ⟨[], sgn, ds, rest, rfl, by simp, hne, hds, hrest, hid⟩
    have hskip : SkipSpace (ws ++ (sgn ++ (ds ++ rest))) = some (sgn ++ (ds ++ rest)) := by
      refine (SkipSpace_eq_some _ _).2 ⟨ws, rfl, hws, ?_⟩
      refine head_of_number_not_space sgn ds rest hne hds ?_
      rcases hid with ⟨h | h, -, -⟩ | ⟨h, -, -⟩
      · exact Or.inl h
      · exact Or.inr (Or.inl h)
      · exact Or.inr (Or.inr h)
    simp only [hskip]
    exact hscan

/-- C3, as stated, fails: `parseID` does not reject characters after the
digits.  The paths `/movies/12abc` and `/movies/1/extra` are accepted with ids
12 and 1, and `movieHandler` goes on to the lookup (404 on the initial store)
instead of responding 400. -/
theorem parseID_ignores_trailing_characters :
    (parseID false "/movies/12abc" = .ok 12 ∧ parseID true "/movies/12abc" = .ok 12) ∧
    (parseID false "/movies/1/extra" = .ok 1 ∧ parseID true "/movies/1/extra" = .ok 1) ∧
    (movieHandler false Store.init ⟨"GET", "/movies/12abc", none⟩).2 =
      httpError "Movie not found" 404 ∧
    (movieHandler true Store.init ⟨"GET", "/movies/12abc", none⟩).2 =
      httpError "Movie not found" 404 := by
  exact ⟨⟨rfl, rfl⟩, ⟨rfl, rfl⟩, by decide, by decide⟩

/-- C3, amended: `parseID` returns `id` exactly for the paths made of the
literal `/movies/`, optional white space without a line feed, an optional
sign, one or more decimal digits that denote `id` within the 64-bit range,
and then either nothing or trailing characters of which the first does not
continue the number (it is no decimal digit and, where the scanner takes
underscores into the number, no underscore); the trailing characters are
ignored.  For every other path `parseID` returns the error
"invalid movie ID" and `movieHandler` responds with status 400 and that body,
leaving the store as it was. -/
theorem parseID_accepts_iff (u : Bool) (s : Store) (r : Request) :
    (∀ id : Int, parseID u r.Path = .ok id ↔ AcceptedPath u r.Path.toList id) ∧
    ((∀ id : Int, ¬ AcceptedPath u r.Path.toList id) →
      parseID u r.Path = .error "invalid movie ID" ∧
      movieHandler u s r = (s, httpError "invalid movie ID" 400)) := by
  have hiff : ∀ id : Int, parseID u r.Path = .ok id ↔ AcceptedPath u r.Path.toList id := by
    intro id
    rw [← Sscanf_movies_d_eq_some]
    unfold parseID
    cases Sscanf_movies_d u r.Path.toList <;> simp
  refine ⟨hiff, ?_⟩
  intro hno
  have herr : parseID u r.Path = .error "invalid movie ID" := by
    cases hs : Sscanf_movies_d u r.Path.toList with
    | none => simp only [parseID, hs]
    | some id => exact absurd ((Sscanf_movies_d_eq_some _ _).1 hs) (hno id)
  exact ⟨herr, by simp [movieHandler, herr]⟩

/-- Scenario for C3: `/movies/1/extra` has the accepted form with id 1, so
`parseID` returns 1; `/movies/abc` has the accepted form for no id, so
`parseID` returns the error and a GET on it responds 400 "invalid movie ID". -/
theorem parseID_accepts_iff_scenario :
    parseID false "/movies/1/extra" = .ok 1 ∧
    (∀ id : Int, ¬ AcceptedPath false "/movies/abc".toList id) ∧
    parseID false "/movies/abc" = .error "invalid movie ID" ∧
    movieHandler false inceptionStore ⟨"GET", "/movies/abc", none⟩ =
      (inceptionStore, httpError "invalid movie ID" 400) := by
  have hacc : AcceptedPath false "/movies/1/extra".toList 1 :=
    ⟨[], [], ['1'], "/extra".toList, rfl, by simp, by simp, by simp [isDecimalDigit],
      by simp [isScanDigit, isDecimalDigit], Or.inl ⟨Or.inl rfl, by decide, by decide⟩⟩
  have h1 :=
    ((parseID_accepts_iff false inceptionStore ⟨"GET", "/movies/1/extra", none⟩).1 1).2 hacc
  have hno : ∀ id : Int, ¬ AcceptedPath false "/movies/abc".toList id := by
    intro id hid
    have h2 :=
      ((parseID_accepts_iff false inceptionStore ⟨"GET", "/movies/abc", none⟩).1 id).2 hid
    have h3 : parseID false "/movies/abc" = .error "invalid movie ID" := rfl
    rw [h3] at h2
    exact absurd h2 (by simp)
  have h4 := (parseID_accepts_iff false inceptionStore ⟨"GET", "/movies/abc", none⟩).2 hno
  exact ⟨h1, hno, h4.1, h4.2⟩

/-! ## The listing -/

/-- C8: after the run made of a create (which returns id 1), an update of id 1
with the payload `{"id": 99}` and a list request, the list holds one record
and its id is 99, although the only id a create assigned is 1 and nothing was
deleted. -/
theorem getMovies_lists_overwritten_id (u : Bool) :
    (run u Store.init [.movies postInception, .movie putID99,
        .movies ⟨"GET", "/movies", none⟩]).2 =
      [⟨201, .movie inception⟩,
       ⟨200, .movie ⟨99, "Inception", "Nolan", 2010⟩⟩,
       ⟨200, .movieList [⟨99, "Inception", "Nolan", 2010⟩]⟩] := by
  cases u <;> decide

/-! ## What holds of the keys and of the listing whatever the payloads

The defect of `updateMovie` shown above concerns the `ID` field of a stored
record only.  The statements of this section show what the store keeps
nevertheless: the number of records listed, and the agreement of keys and
`ID` fields in runs whose request bodies carry no `id` member. -/

/-- One step keeps the agreement of keys and `ID` fields when the body of its
request has no `id` member. -/
theorem serve_keeps_KeysAreIDs {u : Bool} (s : Store) (i : Invocation)
    (hs : s.KeysAreIDs) (hi : i.request.hasPayloadID = false) :
    (serve u s i).1.KeysAreIDs := by
  have hins : ∀ (id : Int) (m : Movie), m.ID = id →
      (⟨s.movies.insert id m, s.nextID⟩ : Store).KeysAreIDs ∧
      (⟨s.movies.insert id m, s.nextID + 1⟩ : Store).KeysAreIDs := by
    intro id m hm
    constructor <;>
    · intro k m' hk
      by_cases hkid : k = id
      · subst hkid
        simp only [AList.lookup_insert, Option.some.injEq] at hk
        rw [← hk]; exact hm
      · simp only [AList.lookup_insert_ne hkid] at hk
        exact hs k m' hk
  cases i with
  | movies r =>
    simp only [serve, moviesHandler]
    split_ifs with h1 h2
    · exact hs
    · cases hd : Decode r.Body Movie.zero with
      | none => simpa [createMovie, hd] using hs
      | some m =>
        simp only [createMovie, hd]
        exact (hins s.nextID { m with ID := s.nextID } rfl).2
    · exact hs
  | movie r =>
    simp only [serve, movieHandler]
    cases hp : parseID u r.Path with
    | error e => exact hs
    | ok id =>
      simp only []
      split_ifs with h1 h2 h3
      · cases hl : s.movies.lookup id <;> simpa [getMovie, hl] using hs
      · cases hl : s.movies.lookup id with
        | none => simpa [updateMovie, hl] using hs
        | some old =>
          cases hb : r.Body with
          | none => simpa [updateMovie, hl, Decode, hb] using hs
          | some p =>
            have hid : p.id = none := by
              simp only [Invocation.request, Request.hasPayloadID, hb] at hi
              cases hpid : p.id with
              | none => rfl
              | some v => rw [hpid] at hi; simp at hi
            simp only [updateMovie, hl, Decode, hb, Option.map_some']
            refine (hins id (p.decodeInto old) ?_).1
            simp only [Payload.decodeInto, hid, Option.getD_none]
            exact hs id old hl
      · cases hl : s.movies.lookup id with
        | none => simpa [deleteMovie, hl] using hs
        | some old =>
          simp only [deleteMovie, hl]
          intro k m hk
          by_cases hkid : k = id
          · subst hkid
            simp [AList.lookup_erase] at hk
          · simp only [AList.lookup_erase_ne hkid] at hk
            exact hs k m hk
      · exact hs

/-- In a run from the initial store whose request bodies carry no `id` member,
every key of the map reached is the `ID` field of its record. -/
theorem run_keeps_KeysAreIDs {u : Bool} (trace : List Invocation)
    (h : ∀ i ∈ trace, i.request.hasPayloadID = false) :
    (run u Store.init trace).1.KeysAreIDs := by
  have gen : ∀ (t : List Invocation) (s : Store), s.KeysAreIDs →
      (∀ i ∈ t, i.request.hasPayloadID = false) → (run u s t).1.KeysAreIDs := by
    intro t
    induction t with
    | nil => intro s hs _; exact hs
    | cons i rest ih =>
      intro s hs ht
      rw [run_cons_fst]
      exact ih _ (serve_keeps_KeysAreIDs s i hs (ht i (List.mem_cons_self _ _)))
        (fun j hj => ht j (List.mem_cons_of_mem _ hj))
  refine gen trace Store.init ?_ h
  intro k m hk
  simp [Store.init] at hk

theorem countStatus_cons (code : Nat) (resp : Response) (resps : List Response) :
    countStatus code (resp :: resps) =
      countStatus code resps + if resp.status = code then 1 else 0 := by
  simp [countStatus, List.countP_cons]

/-- What one step does to the number of keys, against its response status. -/
theorem serve_keys_length {u : Bool} (s : Store) (i : Invocation)
    (hs : ∀ k ∈ s.movies, k < s.nextID) :
    (serve u s i).1.movies.keys.length + (if (serve u s i).2.status = 204 then 1 else 0) =
      s.movies.keys.length + (if (serve u s i).2.status = 201 then 1 else 0) := by
  rcases serve_cases s i with ⟨h1, h2, h3⟩ | ⟨m, -, h⟩ | ⟨id, m, hid, h⟩ | ⟨id, hid, h⟩
  · rw [h1]; simp [h2, h3]
  · rw [h]
    have hn : s.nextID ∉ s.movies.keys := by
      intro hk
      have := hs s.nextID (AList.mem_keys.2 hk)
      omega
    simp [AList.keys_insert, List.erase_of_not_mem hn]
  · rw [h]
    have hk : id ∈ s.movies.keys := AList.mem_keys.1 hid
    have hpos : 0 < s.movies.keys.length := List.length_pos_of_mem hk
    simp only [AList.keys_insert, List.length_cons, List.length_erase_of_mem hk]
    simp
    omega
  · rw [h]
    have hk : id ∈ s.movies.keys := AList.mem_keys.1 hid
    have hpos : 0 < s.movies.keys.length := List.length_pos_of_mem hk
    simp only [AList.keys_erase, List.length_erase_of_mem hk]
    simp
    omega

/-- In every run from the initial store, the number of keys of the map
reached, plus the number of 204 responses (deletes done), is the number of
201 responses (creates done). -/
theorem run_keys_length {u : Bool} (trace : List Invocation) :
    (run u Store.init trace).1.movies.keys.length +
        countStatus 204 (run u Store.init trace).2 =
      countStatus 201 (run u Store.init trace).2 := by
  have gen : ∀ (t : List Invocation) (s : Store), (∀ k ∈ s.movies, k < s.nextID) →
      (run u s t).1.movies.keys.length + countStatus 204 (run u s t).2 =
        s.movies.keys.length + countStatus 201 (run u s t).2 := by
    intro t
    induction t with
    | nil => intro s _; simp [run, countStatus]
    | cons i rest ih =>
      intro s hs
      have h1 := serve_keys_length (u := u) s i hs
      have h2 := ih (serve u s i).1 (serve_step s i hs).1
      rw [run_cons_fst, run_cons_snd, countStatus_cons, countStatus_cons]
      omega
  have h0 : ∀ k ∈ Store.init.movies, k < Store.init.nextID := by
    intro k hk
    exact absurd hk (AList.not_mem_empty k)
  have := gen trace Store.init h0
  simpa [Store.init] using this

/-- In every run from the initial store the counter of the store reached is
one more than the number of 201 responses (creates done); it is below
`2 ^ 63 - 1` as long as fewer than `2 ^ 63 - 2` creates were done. -/
theorem run_nextID {u : Bool} (trace : List Invocation) :
    (run u Store.init trace).1.nextID =
      1 + (countStatus 201 (run u Store.init trace).2 : Int) := by
  have step : ∀ (s : Store) (i : Invocation),
      (serve u s i).1.nextID =
        s.nextID + ((if (serve u s i).2.status = 201 then 1 else 0 : Nat) : Int) := by
    intro s i
    rcases serve_cases (u := u) s i with ⟨h1, h2, -⟩ | ⟨m, -, h⟩ | ⟨id, m, -, h⟩ | ⟨id, -, h⟩
    · rw [h1]; simp [h2]
    · rw [h]; simp
    · rw [h]; simp
    · rw [h]; simp
  have gen : ∀ (t : List Invocation) (s : Store),
      (run u s t).1.nextID = s.nextID + (countStatus 201 (run u s t).2 : Int) := by
    intro t
    induction t with
    | nil => intro s; simp [run, countStatus]
    | cons i rest ih =>
      intro s
      rw [run_cons_fst, run_cons_snd, countStatus_cons, ih, step s i]
      push_cast
      ring
  simpa [Store.init] using gen trace Store.init

/-- The list `getMovies` returns has one record for every key of the map. -/
theorem getMovies_length (s : Store) :
    ∃ l : List Movie, (getMovies s).2 = ⟨200, .movieList l⟩ ∧ (getMovies s).1 = s ∧
      l.length = s.movies.keys.length := by
  refine ⟨_, rfl, rfl, ?_⟩
  simp [AList.keys, List.keys]

/-! ## Dispatch on the method -/

/-- C11: `moviesHandler` dispatches GET to `getMovies` and POST to
`createMovie` and answers every other method with 405 "Method not allowed";
`movieHandler`, on a path whose id `parseID` returns, dispatches GET to
`getMovie`, PUT to `updateMovie` and DELETE to `deleteMovie`, each with that
id, and answers every other method with 405 "Method not allowed".  A 405
leaves the store as it was. -/
theorem method_dispatch (u : Bool) (s : Store) (r : Request) :
    (r.Method = "GET" → moviesHandler s r = getMovies s) ∧
    (r.Method = "POST" → moviesHandler s r = createMovie s r) ∧
    (r.Method ≠ "GET" → r.Method ≠ "POST" →
      moviesHandler s r = (s, httpError "Method not allowed" 405)) ∧
    (∀ id : Int, parseID u r.Path = .ok id →
      (r.Method = "GET" → movieHandler u s r = getMovie s id) ∧
      (r.Method = "PUT" → movieHandler u s r = updateMovie s r id) ∧
      (r.Method = "DELETE" → movieHandler u s r = deleteMovie s id) ∧
      (r.Method ≠ "GET" → r.Method ≠ "PUT" → r.Method ≠ "DELETE" →
        movieHandler u s r = (s, httpError "Method not allowed" 405))) := by
  refine ⟨?_, ?_, ?_, ?_⟩
  · intro h
    simp [moviesHandler, h]
  · intro h
    simp [moviesHandler, h]
  · intro h1 h2
    simp [moviesHandler, h1, h2]
  · intro id hid
    refine ⟨?_, ?_, ?_, ?_⟩
    · intro h
      simp [movieHandler, hid, h]
    · intro h
      simp [movieHandler, hid, h]
    · intro h
      simp [movieHandler, hid, h]
    · intro h1 h2 h3
      simp [movieHandler, hid, h1, h2, h3]

/-- Scenario for C11: a PATCH on `/movies` and a PATCH on `/movies/1` (whose
id parses as 1) are answered with 405 on the store holding the scenario's
record, and a DELETE on `/movies/1` is the delete of id 1. -/
theorem method_dispatch_scenario :
    parseID false "/movies/1" = .ok 1 ∧
    moviesHandler inceptionStore ⟨"PATCH", "/movies", none⟩ =
      (inceptionStore, httpError "Method not allowed" 405) ∧
    movieHandler false inceptionStore ⟨"PATCH", "/movies/1", none⟩ =
      (inceptionStore, httpError "Method not allowed" 405) ∧
    movieHandler false inceptionStore ⟨"DELETE", "/movies/1", none⟩ =
      deleteMovie inceptionStore 1 := by
  have hp : parseID false "/movies/1" = .ok 1 := rfl
  obtain ⟨-, -, h3, -⟩ := method_dispatch false inceptionStore ⟨"PATCH", "/movies", none⟩
  obtain ⟨-, -, -, h4⟩ := method_dispatch false inceptionStore ⟨"PATCH", "/movies/1", none⟩
  obtain ⟨-, -, -, h5⟩ := method_dispatch false inceptionStore ⟨"DELETE", "/movies/1", none⟩
  exact ⟨hp, h3 (by decide) (by decide),
    (h4 1 hp).2.2.2 (by decide) (by decide) (by decide), (h5 1 hp).2.2.1 rfl⟩

/-- C14: when `parseID` rejects the path of a request, `movieHandler` responds
400 "invalid movie ID" and leaves the store as it was, whatever the method of
the request is. -/
theorem movieHandler_rejected_path (u : Bool) (s : Store) (r : Request) (e : String)
    (h : parseID u r.Path = .error e) :
    movieHandler u s r = (s, httpError "invalid movie ID" 400) := by
  have he : e = "invalid movie ID" := by
    unfold parseID at h
    cases hs : Sscanf_movies_d u r.Path.toList with
    | none =>
      rw [hs] at h
      simp only [Except.error.injEq] at h
      exact h.symm
    | some id =>
      rw [hs] at h
      exact absurd h (by simp)
  subst he
  simp [movieHandler, h]

/-- Scenario for C14: `parseID` rejects `/movies/abc`, and a PATCH on that path,
a method that gets 405 on a path with an id, responds 400
"invalid movie ID". -/
theorem movieHandler_rejected_path_scenario :
    parseID false "/movies/abc" = .error "invalid movie ID" ∧
    movieHandler false inceptionStore ⟨"PATCH", "/movies/abc", none⟩ =
      (inceptionStore, httpError "invalid movie ID" 400) :=
  ⟨rfl, movieHandler_rejected_path false inceptionStore ⟨"PATCH", "/movies/abc", none⟩
    "invalid movie ID" rfl⟩

/-! ## Order of the checks in `updateMovie`, and the frame of the operations -/

/-- C12: when `id` is no key of the map, `updateMovie` responds 404
"Movie not found" whatever the body is, decodable or not; it responds 400
exactly when `id` is a key and the body does not decode, and the response is
then 400 "Invalid request". -/
theorem updateMovie_checks_existence_first (s : Store) (r : Request) (id : Int) :
    (id ∉ s.movies → updateMovie s r id = (s, httpError "Movie not found" 404)) ∧
    ((updateMovie s r id).2.status = 400 ↔ id ∈ s.movies ∧ r.Body = none) ∧
    (id ∈ s.movies → r.Body = none →
      updateMovie s r id = (s, httpError "Invalid request" 400)) := by
  cases hl : s.movies.lookup id with
  | none =>
    have hn : id ∉ s.movies := AList.lookup_eq_none.1 hl
    refine ⟨fun _ => by simp [updateMovie, hl], ?_, fun h => absurd h hn⟩
    simp [updateMovie, hl, httpError, hn]
  | some old =>
    have hm : id ∈ s.movies := by
      rw [← AList.lookup_isSome, hl]; rfl
    refine ⟨fun h => absurd hm h, ?_, ?_⟩
    · cases hb : r.Body with
      | none => simp [updateMovie, hl, Decode, hb, httpError, hm]
      | some p => simp [updateMovie, hl, Decode, hb]
    · intro _ hb
      simp [updateMovie, hl, Decode, hb]

/-- Scenario for C12: on the store holding the scenario's record under key 1,
an update of id 99 responds 404 with a body that decodes and with one that
does not, and an update of id 1 with a body that does not decode responds
400 "Invalid request". -/
theorem updateMovie_checks_existence_first_scenario :
    (99 : Int) ∉ inceptionStore.movies ∧ (1 : Int) ∈ inceptionStore.movies ∧
    updateMovie inceptionStore putYear2011 99 =
      (inceptionStore, httpError "Movie not found" 404) ∧
    updateMovie inceptionStore ⟨"PUT", "/movies/99", none⟩ 99 =
      (inceptionStore, httpError "Movie not found" 404) ∧
    updateMovie inceptionStore ⟨"PUT", "/movies/1", none⟩ 1 =
      (inceptionStore, httpError "Invalid request" 400) := by
  have h99 : (99 : Int) ∉ inceptionStore.movies := by decide
  have h1 : (1 : Int) ∈ inceptionStore.movies := by decide
  exact ⟨h99, h1,
    (updateMovie_checks_existence_first inceptionStore putYear2011 99).1 h99,
    (updateMovie_checks_existence_first inceptionStore ⟨"PUT", "/movies/99", none⟩ 99).1 h99,
    (updateMovie_checks_existence_first inceptionStore ⟨"PUT", "/movies/1", none⟩ 1).2.2 h1 rfl⟩

/-- C13: `getMovies` and `getMovie` leave the store (map and counter) as it
was.  `createMovie` leaves every key/record pair of the map as it was when the
counter is no key of the map, and in every store reached by a run from the
initial store the counter is no key of the map.  `updateMovie` and
`deleteMovie` on `id` leave the counter and the record under every key other
than `id` as they were. -/
theorem frame_of_operations (u : Bool) (s : Store) (r : Request) (id : Int) :
    (getMovies s).1 = s ∧ (getMovie s id).1 = s ∧
    (s.nextID ∉ s.movies → ∀ (k : Int) (m : Movie), s.movies.lookup k = some m →
      (createMovie s r).1.movies.lookup k = some m) ∧
    (∀ trace : List Invocation,
      (run u Store.init trace).1.nextID ∉ (run u Store.init trace).1.movies) ∧
    ((updateMovie s r id).1.nextID = s.nextID ∧
      ∀ k : Int, k ≠ id → (updateMovie s r id).1.movies.lookup k = s.movies.lookup k) ∧
    ((deleteMovie s id).1.nextID = s.nextID ∧
      ∀ k : Int, k ≠ id → (deleteMovie s id).1.movies.lookup k = s.movies.lookup k) := by
  refine ⟨rfl, ?_, ?_, ?_, ?_, ?_⟩
  · cases hl : s.movies.lookup id <;> simp [getMovie, hl]
  · intro hn k m hk
    have hne : k ≠ s.nextID := by
      rintro rfl
      exact hn (AList.lookup_isSome.1 (by rw [hk]; rfl))
    cases hb : r.Body with
    | none => simpa [createMovie, Decode, hb] using hk
    | some p => simpa [createMovie, Decode, hb, AList.lookup_insert_ne hne] using hk
  · intro trace hmem
    have h0 : ∀ k ∈ Store.init.movies, k < Store.init.nextID := by
      intro k hk
      exact absurd hk (AList.not_mem_empty k)
    have := (run_invariant (u := u) trace Store.init h0).1 _ hmem
    omega
  · cases hl : s.movies.lookup id with
    | none => simp [updateMovie, hl]
    | some old =>
      cases hb : r.Body with
      | none => simp [updateMovie, hl, Decode, hb]
      | some p =>
        refine ⟨by simp [updateMovie, hl, Decode, hb], ?_⟩
        intro k hk
        simp [updateMovie, hl, Decode, hb, AList.lookup_insert_ne hk]
  · cases hl : s.movies.lookup id with
    | none => simp [deleteMovie, hl]
    | some old =>
      refine ⟨by simp [deleteMovie, hl], ?_⟩
      intro k hk
      simp [deleteMovie, hl, AList.lookup_erase_ne hk]

/-- Scenario for C13: in the store holding the scenario's record under key 1
the counter, 2, is no key; a create keeps the record under key 1, and an
update and a delete of id 99 leave the record under key 1 and the counter as
they were. -/
theorem frame_of_operations_scenario :
    inceptionStore.nextID ∉ inceptionStore.movies ∧
    (createMovie inceptionStore postInception).1.movies.lookup 1 = some inception ∧
    (updateMovie inceptionStore putYear2011 99).1.movies.lookup 1 = some inception ∧
    (deleteMovie inceptionStore 99).1.nextID = 2 := by
  have hn : inceptionStore.nextID ∉ inceptionStore.movies := by decide
  have hl : inceptionStore.movies.lookup 1 = some inception := by decide
  obtain ⟨-, -, hc, -, hu, hd⟩ := frame_of_operations false inceptionStore postInception 99
  obtain ⟨-, -, -, -, hu2, -⟩ := frame_of_operations false inceptionStore putYear2011 99
  refine ⟨hn, hc hn 1 inception hl, ?_, ?_⟩
  · rw [hu2.2 1 (by decide)]; exact hl
  · rw [hd.1]; rfl

end MovieService
